import Mathlib

/-
  Verification development for the PermaStore contract (src/pstore.cpp).

  The contract stores, per 64 bit Antelope name, a singleton file record
  (owner, top, published) and a table of data nodes keyed by node id.
  All state is scoped by the file name, so the embedding models one name
  as a NameState and the whole store as a function from names to states.
  Machine integers are modelled as Nat with explicit reductions modulo
  2 to the 32 where the source uses uint32_t arithmetic.
-/

namespace PStore

/-- Symbol of a 64 bit Antelope name value at position i: positions 0 to 11
hold five bit symbols packed from the high bits downward, position 12 holds
the four bit thirteenth symbol in the low four bits. -/
def slotAt (v i : Nat) : Nat :=
  if i < 12 then (v >>> (59 - 5 * i)) % 32 else v % 16

/-- Downward scan computing one plus the largest symbol position below the
bound that holds a nonzero symbol, and zero when all scanned symbols are
zero. Mirrors the length method of eosio name, which records the last
nonzero position while scanning all thirteen. -/
def lenScan (v : Nat) : Nat → Nat
  | 0 => 0
  | i + 1 => if slotAt v i ≠ 0 then i + 1 else lenScan v i

/-- Length of a name value, as computed by the eosio name length method. -/
def nameLength (v : Nat) : Nat := lenScan v 13

/-- Loop body of the visible dot scan in create, pstore.cpp lines 78 to 83:
n iterations, each testing whether the low five bits of tmp are zero and
then shifting tmp right by five. -/
def visLoop : Nat → Nat → Bool → Bool
  | 0, _, dot => dot
  | n + 1, tmp, dot => visLoop n (tmp >>> 5) (dot || decide (tmp % 32 = 0))

/-- The visible dot flag computed by create: the loop runs length many times
starting from the name value shifted right by four. -/
def visibleDot (v : Nat) : Bool := visLoop (nameLength v) (v >>> 4) false

/-- Fold of the eosio name suffix computation over the twelve five bit
symbol positions, high bits first. The state is the pair of the remaining
bits after the last actual dot and the running tmp value. -/
def suffixFold (v : Nat) : Nat × Nat :=
  (List.range 12).foldl
    (fun st i =>
      let rb := 59 - 5 * i
      if (v >>> rb) % 32 = 0 then (st.1, rb) else (st.2, st.2))
    (0, 0)

/-- Suffix of a name value, as computed by the eosio name suffix method. -/
def nameSuffix (v : Nat) : Nat :=
  let st := suffixFold v
  let thirteenth := v % 16
  let rbald := if thirteenth ≠ 0 then st.2 else st.1
  if rbald = 0 then v
  else Nat.land v ((1 <<< rbald) - 16) <<< (64 - rbald) +
    thirteenth <<< (64 - rbald - 4)

/-- Spec side definition, for comparison with the visible dot flag the code
computes: the spec says a visible delimiter exists when an empty symbol
appears at some position before the natural trailing padding of the name,
that is, at a position below the length of the name. -/
def specVisibleDelimiter (v : Nat) : Bool :=
  (List.range 12).any
    (fun j => decide (j < nameLength v) && decide (slotAt v j = 0))

/-- Failure kinds of the contract. The first eight correspond to the check
messages of pstore.cpp in the order of the spec taxonomy: File exists,
the three suffix authorization messages, File does not exist, Not file
owner, Empty nodedata, Past top, File not published, Empty file. The last
kind models the eosio multi index assertion that fires when delnode calls
erase on an end iterator, which has no message in the spec taxonomy. -/
inductive Err
  | AlreadyExists
  | NamespaceNotAuthorized
  | NotFound
  | NotOwner
  | EmptyChunk
  | IndexPastTop
  | NotPublished
  | EmptyObject
  | InternalIterator
deriving DecidableEq, Repr

/-- The file record, pstore.cpp lines 42 to 47. The owner field is a name
value, top is a uint32_t counter, published a flag. -/
structure FileRec where
  owner : Nat
  top : Nat
  published : Bool
deriving DecidableEq, Repr

/-- A row of the external name bid table of the system contract,
pstore.cpp lines 211 to 218. -/
structure NameBid where
  newname : Nat
  high_bidder : Nat
  high_bid : Int
  last_bid_time : Int
deriving DecidableEq, Repr

/-- State scoped to one file name: the singleton file record, when present,
and the node table as a map from node id to node data. Node data bytes are
modelled as a list of Nat. -/
structure NameState where
  file : Option FileRec
  nodes : Nat → Option (List Nat)

/-- The read only registry lookup consumed by create. -/
def Bids := Nat → Option NameBid

/-- The helper of pstore.cpp lines 231 to 237: the caller is authenticated
by the host, then the singleton file record must exist, then the caller
must be its owner. -/
def authAndFindFile (owner : Nat) (s : NameState) : Except Err FileRec :=
  match s.file with
  | none => .error .NotFound
  | some f => if f.owner = owner then .ok f else .error .NotOwner

/-- The create action, pstore.cpp lines 67 to 102. The file must be new,
then the visible dot scan decides whether the suffix authorization against
the external bid registry applies, then the record is created with the
caller as owner, top zero and published false. -/
def create (bids : Bids) (filename owner : Nat) (s : NameState) :
    Option Err × NameState :=
  match s.file with
  | some _ => (some .AlreadyExists, s)
  | none =>
    if visibleDot filename then
      match bids (nameSuffix filename) with
      | some current =>
        if current.high_bid < 0 then
          if current.high_bidder = owner then
            (none, { s with file := some ⟨owner, 0, false⟩ })
          else (some .NamespaceNotAuthorized, s)
        else (some .NamespaceNotAuthorized, s)
      | none =>
        if owner = nameSuffix filename then
          (none, { s with file := some ⟨owner, 0, false⟩ })
        else (some .NamespaceNotAuthorized, s)
    else (none, { s with file := some ⟨owner, 0, false⟩ })

/-- The reset action, pstore.cpp lines 107 to 116: top and published are
cleared and all nodes of the name are erased. -/
def reset (owner : Nat) (s : NameState) : Option Err × NameState :=
  match authAndFindFile owner s with
  | .error e => (some e, s)
  | .ok f =>
    (none, { file := some { f with top := 0, published := false },
             nodes := fun _ => none })

/-- The del action, pstore.cpp lines 121 to 127: the file record is erased
and all nodes of the name are erased. -/
def del (owner : Nat) (s : NameState) : Option Err × NameState :=
  match authAndFindFile owner s with
  | .error e => (some e, s)
  | .ok _ => (none, { file := none, nodes := fun _ => none })

/-- The setpub action, pstore.cpp lines 132 to 139. -/
def setpub (owner : Nat) (ispub : Bool) (s : NameState) :
    Option Err × NameState :=
  match authAndFindFile owner s with
  | .error e => (some e, s)
  | .ok f => (none, { s with file := some { f with published := ispub } })

/-- The setimmutable action, pstore.cpp lines 144 to 152: requires the file
to be published and sets the owner to the empty name, value zero. -/
def setimmutable (owner : Nat) (s : NameState) : Option Err × NameState :=
  match authAndFindFile owner s with
  | .error e => (some e, s)
  | .ok f =>
    if f.published then
      (none, { s with file := some { f with owner := 0 } })
    else (some .NotPublished, s)

/-- The setnode action, pstore.cpp lines 160 to 185: empty data is rejected
first, then the auth and existence checks run, then the node id must not
be past the top. The file record update clears published and increments
top, a uint32_t, exactly when the node id equals the old top. Finally the
node is inserted or overwritten. -/
def setnode (owner nodeid : Nat) (nodedata : List Nat) (s : NameState) :
    Option Err × NameState :=
  if nodedata = [] then (some .EmptyChunk, s)
  else
    match authAndFindFile owner s with
    | .error e => (some e, s)
    | .ok f =>
      if nodeid ≤ f.top then
        let f2 : FileRec :=
          { f with published := false,
                   top := if f.top = nodeid then (f.top + 1) % 2 ^ 32
                          else f.top }
        (none, { file := some f2,
                 nodes := fun i => if i = nodeid then some nodedata
                          else s.nodes i })
      else (some .IndexPastTop, s)

/-- The delnode action, pstore.cpp lines 190 to 204: requires a nonzero
top, decrements it and clears published, then erases the node at the new
top. The source erases through an iterator obtained from find; when that
node is absent the eosio erase assertion fires after the file record was
already modified, which the model reports as InternalIterator together
with the partially mutated state reached at that point. -/
def delnode (owner : Nat) (s : NameState) : Option Err × NameState :=
  match authAndFindFile owner s with
  | .error e => (some e, s)
  | .ok f =>
    if 0 < f.top then
      let t2 := f.top - 1
      let s2 : NameState :=
        { s with file := some { f with top := t2, published := false } }
      match s2.nodes t2 with
      | some _ =>
        (none, { s2 with nodes := fun i => if i = t2 then none
                         else s2.nodes i })
      | none => (some .InternalIterator, s2)
    else (some .EmptyObject, s)

/-- The action surface of the contract. Every action carries the identity
the host authenticated for the call. -/
inductive Act
  | create (owner : Nat)
  | reset (owner : Nat)
  | del (owner : Nat)
  | setpub (owner : Nat) (ispub : Bool)
  | setimmutable (owner : Nat)
  | setnode (owner : Nat) (nodeid : Nat) (nodedata : List Nat)
  | delnode (owner : Nat)
deriving DecidableEq, Repr

/-- The authenticated caller of an action. -/
def Act.caller : Act → Nat
  | .create o => o
  | .reset o => o
  | .del o => o
  | .setpub o _ => o
  | .setimmutable o => o
  | .setnode o _ _ => o
  | .delnode o => o

/-- Whether an action is a create. -/
def Act.isCreate : Act → Bool
  | .create _ => true
  | _ => false

/-- Whether an action is a setnode. -/
def Act.isSetnode : Act → Bool
  | .setnode _ _ _ => true
  | _ => false

/-- One raw action execution on the state of one name. -/
def applyAct (bids : Bids) (fn : Nat) : Act → NameState →
    Option Err × NameState
  | .create owner, s => create bids fn owner s
  | .reset owner, s => reset owner s
  | .del owner, s => del owner s
  | .setpub owner ispub, s => setpub owner ispub s
  | .setimmutable owner, s => setimmutable owner s
  | .setnode owner nodeid nodedata, s => setnode owner nodeid nodedata s
  | .delnode owner, s => delnode owner s

/-- The whole store: one NameState per name value. -/
def Store := Nat → NameState

/-- One raw action execution on the whole store. Both tables of the
contract are scoped by the file name, so an action only touches the state
of its own name. -/
def applyStore (bids : Bids) (fn : Nat) (a : Act) (st : Store) :
    Option Err × Store :=
  let r := applyAct bids fn a (st fn)
  (r.1, fun x => if x = fn then r.2 else st x)

/-- Host transaction semantics: a failing action is discarded whole. -/
def hostStep (bids : Bids) (fn : Nat) (a : Act) (s : NameState) :
    NameState :=
  match applyAct bids fn a s with
  | (none, s2) => s2
  | (some _, _) => s

/-- Host execution of a list of transactions against one name, each with
its own registry snapshot. -/
def hostRun (fn : Nat) : List (Bids × Act) → NameState → NameState
  | [], s => s
  | p :: tr, s => hostRun fn tr (hostStep p.1 fn p.2 s)

/-- The chunk counter of a state, zero when no record exists. -/
def topOf (s : NameState) : Nat :=
  match s.file with
  | none => 0
  | some f => f.top

/-- State of a name before any action ran. -/
def initState : NameState := ⟨none, fun _ => none⟩

/-- The empty registry. -/
def bids0 : Bids := fun _ => none

/-- The eight failure kinds of the spec taxonomy. -/
def listedErr (e : Err) : Prop :=
  e = .AlreadyExists ∨ e = .NamespaceNotAuthorized ∨ e = .NotFound ∨
  e = .NotOwner ∨ e = .EmptyChunk ∨ e = .IndexPastTop ∨
  e = .NotPublished ∨ e = .EmptyObject

/-- Failure kind a frozen record answers with: setnode with empty data
fails on the empty data check before ownership, every other non create
action fails the ownership check. -/
def frozenErr : Act → Err
  | .setnode _ _ [] => .EmptyChunk
  | _ => .NotOwner

/-- Contiguity property of one name: the stored node ids are exactly the
ids below the stored top counter. -/
def Contig (s : NameState) : Prop :=
  ∀ f, s.file = some f → ∀ i, ((s.nodes i).isSome ↔ i < f.top)

/-- Full invariant used in the reachability induction: when no record
exists the node table is empty, and when a record exists the node table
holds exactly the ids below top. -/
def Inv (s : NameState) : Prop :=
  (s.file = none → ∀ i, s.nodes i = none) ∧
  (∀ f, s.file = some f → ∀ i, ((s.nodes i).isSome ↔ i < f.top))

/-- States of the name fn reachable in exactly n successful actions from
the absent state. The registry snapshot may differ at every step. -/
inductive ReachIn (fn : Nat) : Nat → NameState → Prop
  | init : ReachIn fn 0 initState
  | step {n : Nat} {bids : Bids} {a : Act} {s s2 : NameState} :
      ReachIn fn n s → applyAct bids fn a s = (none, s2) →
      ReachIn fn (n + 1) s2

/-- Family of states used to drive the counter to the 32 bit boundary:
after a create and k appends of the one byte node 1 by owner 5, the name
zero holds nodes 0 to k minus 1 and the counter k reduced modulo 2 to
the 32. -/
def appState (k : Nat) : NameState :=
  ⟨some ⟨5, k % 2 ^ 32, false⟩,
   fun i => if i < k then some [1] else none⟩

/-- The name value of the three letter name abc: symbols 6, 7, 8 at
positions 0, 1, 2. -/
def vAbc : Nat := 6 <<< 59 + 7 <<< 54 + 8 <<< 49

/-- The name value of the three letter name with a dot inside: symbol 7
at position 0, a dot at position 1, symbol 6 at position 2. -/
def vBdotA : Nat := 7 <<< 59 + 6 <<< 49

/-- The name value of the one letter name a. -/
def vA : Nat := 6 <<< 59

/-- A published single owner state used by the freeze scenarios. -/
def sPub : NameState := ⟨some ⟨7, 0, true⟩, fun _ => none⟩

/-- The state right after a successful freeze of sPub. -/
def sFrozen : NameState := (applyAct bids0 0 (.setimmutable 7) sPub).2

/-- An open state with one stored node, used by the pop witnesses. -/
def sOne : NameState :=
  ⟨some ⟨7, 1, true⟩, fun i => if i = 0 then some [9] else none⟩

/-- An open empty state with published set, used by the write witnesses. -/
def sOpen : NameState := ⟨some ⟨7, 0, true⟩, fun _ => none⟩

/-- A store holding sOne at every name, used by the atomicity witness. -/
def stW : Store := fun _ => sOne

/-- A state at the upper boundary of the 32 bit counter, with all node
ids below the counter stored. -/
def sMax : NameState :=
  ⟨some ⟨9, 2 ^ 32 - 1, true⟩, fun _ => some [7]⟩

/-- Equality of name states from componentwise equality. -/
theorem nameState_eq (s t : NameState) (h1 : s.file = t.file)
    (h2 : ∀ i, s.nodes i = t.nodes i) : s = t := by
  cases s
  cases t
  simp only [NameState.mk.injEq]
  exact ⟨h1, funext h2⟩

/-- The visible dot loop is absorbing once the flag is set. -/
theorem visLoop_true (n : Nat) : ∀ tmp, visLoop n tmp true = true := by
  induction n with
  | zero => intro tmp; rfl
  | succ n ih => intro tmp; simp [visLoop, ih]

/-- The visible dot loop reports a dot whenever some scanned five bit group
is zero. -/
theorem visLoop_hit (n : Nat) : ∀ tmp dot i, i < n →
    (tmp >>> (5 * i)) % 32 = 0 → visLoop n tmp dot = true := by
  induction n with
  | zero => intro tmp dot i h; omega
  | succ n ih =>
    intro tmp dot i hi hz
    cases i with
    | zero =>
      simp only [Nat.mul_zero, Nat.shiftRight_zero] at hz
      simp [visLoop, hz, visLoop_true]
    | succ i =>
      have hs : (tmp >>> 5) >>> (5 * i) % 32 = 0 := by
        have he : 5 * (i + 1) = 5 + 5 * i := by omega
        rw [he, Nat.shiftRight_add] at hz
        exact hz
      exact ih (tmp >>> 5) (dot || decide (tmp % 32 = 0)) i (by omega) hs

/-- The group scanned at iteration i of the visible dot loop is the symbol
at position 11 minus i. -/
theorem visScan_slot (v i : Nat) (hi : i ≤ 11) :
    ((v >>> 4) >>> (5 * i)) % 32 = slotAt v (11 - i) := by
  rw [← Nat.shiftRight_add]
  have h1 : 11 - i < 12 := by omega
  have h2 : 59 - 5 * (11 - i) = 4 + 5 * i := by omega
  simp [slotAt, h1, h2]

/-- The length scan is bounded by its scan bound. -/
theorem lenScan_le (v : Nat) : ∀ n, lenScan v n ≤ n := by
  intro n
  induction n with
  | zero => simp [lenScan]
  | succ n ih =>
    simp only [lenScan]
    split
    · exact Nat.le_refl _
    · omega

/-- Symbols at positions at or past the scanned length are zero. -/
theorem slot_zero_of_ge_lenScan (v : Nat) :
    ∀ n j, lenScan v n ≤ j → j < n → slotAt v j = 0 := by
  intro n
  induction n with
  | zero => intro j h1 h2; omega
  | succ n ih =>
    intro j h1 h2
    by_cases hn : slotAt v n ≠ 0
    · simp only [lenScan, if_pos hn] at h1
      omega
    · simp only [lenScan, if_neg hn] at h1
      push_neg at hn
      by_cases hj : j = n
      · rw [hj]; exact hn
      · exact ih j h1 (by omega)

/-- A position holding a nonzero symbol is below the scanned length. -/
theorem lt_lenScan_of_slot (v : Nat) :
    ∀ n j, j < n → slotAt v j ≠ 0 → j < lenScan v n := by
  intro n
  induction n with
  | zero => intro j h; omega
  | succ n ih =>
    intro j hj hz
    by_cases hn : slotAt v n ≠ 0
    · simp only [lenScan, if_pos hn]
      omega
    · simp only [lenScan, if_neg hn]
      by_cases hjn : j = n
      · rw [hjn] at hz; exact absurd hz hn
      · exact ih j (by omega) hz

/-- Core refinement fact for delimited names: whenever the spec sees a
visible delimiter, the scan coded in create also reports one. -/
theorem visibleDot_of_spec (v : Nat) (hv : v < 2 ^ 64)
    (h : specVisibleDelimiter v = true) : visibleDot v = true := by
  have hj : ∃ j, j < 12 ∧ j < nameLength v ∧ slotAt v j = 0 := by
    simp only [specVisibleDelimiter, List.any_eq_true, List.mem_range,
      Bool.and_eq_true, decide_eq_true_eq] at h
    obtain ⟨j, hj1, hj2, hj3⟩ := h
    exact ⟨j, hj1, hj2, hj3⟩
  obtain ⟨j, hj12, hjL, hjz⟩ := hj
  have hdef : lenScan v 13 = nameLength v := rfl
  have hL13 : nameLength v ≤ 13 := lenScan_le v 13
  unfold visibleDot
  by_cases hc : nameLength v ≤ 11
  · have h11 : slotAt v 11 = 0 :=
      slot_zero_of_ge_lenScan v 13 11 (by omega) (by omega)
    apply visLoop_hit (nameLength v) (v >>> 4) false 0 (by omega)
    have := visScan_slot v 0 (by omega)
    simp only [Nat.mul_zero] at this ⊢
    rw [this]
    exact h11
  · by_cases hc2 : nameLength v = 12
    · apply visLoop_hit (nameLength v) (v >>> 4) false (11 - j) (by omega)
      rw [visScan_slot v (11 - j) (by omega)]
      have : 11 - (11 - j) = j := by omega
      rw [this]
      exact hjz
    · have hc3 : nameLength v = 13 := by omega
      apply visLoop_hit (nameLength v) (v >>> 4) false 12 (by omega)
      rw [← Nat.shiftRight_add]
      have hz : v >>> 64 = 0 := by
        rw [Nat.shiftRight_eq_div_pow]
        exact Nat.div_eq_of_lt hv
      have : (4 : Nat) + 5 * 12 = 64 := by norm_num
      rw [this, hz]

/-- Claim C9: in write chunk the empty data check runs before the existence
and ownership checks, so a call with empty data fails EmptyChunk from every
state, every caller and every registry, including states with no record and
callers other than the owner, and leaves the state unchanged. -/
theorem C9_empty_data_first (bids : Bids) (fn c nodeid : Nat)
    (s : NameState) :
    applyAct bids fn (.setnode c nodeid []) s = (some Err.EmptyChunk, s) := by
  rfl

/-- Claim C10: the chunk counter is a 32 bit field updated with wrapping
arithmetic while node ids are 64 bit: a successful append performed at
counter value 2 to the 32 minus 1 succeeds and wraps the counter to 0. -/
theorem C10_top_wraps_32bit :
    (applyAct bids0 0 (.setnode 9 (2 ^ 32 - 1) [7, 7]) sMax).1 = none ∧
    (applyAct bids0 0 (.setnode 9 (2 ^ 32 - 1) [7, 7]) sMax).2.file =
      some ⟨9, 0, false⟩ := by
  constructor
  · decide
  · decide

/-- Claim C1, failing input: the three letter name abc has no visible
delimiter in the spec sense and is absent, yet create by the authenticated
caller 11 with an empty registry is rejected with the suffix authorization
failure instead of succeeding first come first serve. The scan coded in
create counts the trailing padding of every name shorter than twelve
symbols as delimiters. -/
theorem C1_create_short_name_rejected :
    specVisibleDelimiter vAbc = false ∧
    nameLength vAbc = 3 ∧
    applyAct bids0 vAbc (.create 11) initState =
      (some Err.NamespaceNotAuthorized, initState) := by
  refine ⟨by decide, by decide, ?_⟩
  rfl

/-- The ownership helper succeeds exactly on the stored record and owner. -/
theorem authAndFindFile_ok (c : Nat) (s : NameState) (f : FileRec)
    (hsf : s.file = some f) (ho : f.owner = c) :
    authAndFindFile c s = .ok f := by
  simp [authAndFindFile, hsf, ho]

/-- Inversion of the ownership helper. -/
theorem authAndFindFile_inv (c : Nat) (s : NameState) (f : FileRec)
    (h : authAndFindFile c s = .ok f) : s.file = some f ∧ f.owner = c := by
  cases hsf : s.file with
  | none => simp [authAndFindFile, hsf] at h
  | some g =>
    simp only [authAndFindFile, hsf] at h
    by_cases ho : g.owner = c
    · rw [if_pos ho] at h
      injection h with h2
      subst h2
      exact ⟨rfl, ho⟩
    · rw [if_neg ho] at h
      simp at h

/-- Success shape of create: the record must be absent, and the new record
has the caller as owner, counter zero and published false, with the node
table untouched. -/
theorem create_none_inv (bids : Bids) (fn o : Nat) (s s2 : NameState)
    (h : create bids fn o s = (none, s2)) :
    s.file = none ∧ s2 = ⟨some ⟨o, 0, false⟩, s.nodes⟩ := by
  cases hsf : s.file with
  | some f => simp [create, hsf] at h
  | none =>
    refine ⟨rfl, ?_⟩
    simp only [create, hsf] at h
    by_cases hv : visibleDot fn
    · rw [if_pos hv] at h
      cases hb : bids (nameSuffix fn) with
      | some current =>
        simp only [hb] at h
        by_cases h1 : current.high_bid < 0
        · rw [if_pos h1] at h
          by_cases h2 : current.high_bidder = o
          · rw [if_pos h2] at h
            simp only [Prod.mk.injEq, true_and] at h
            exact h.symm
          · rw [if_neg h2] at h; simp at h
        · rw [if_neg h1] at h; simp at h
      | none =>
        simp only [hb] at h
        by_cases h2 : o = nameSuffix fn
        · rw [if_pos h2] at h
          simp only [Prod.mk.injEq, true_and] at h
          exact h.symm
        · rw [if_neg h2] at h; simp at h
    · rw [if_neg hv] at h
      simp only [Prod.mk.injEq, true_and] at h
      exact h.symm

/-- Success shape of reset. -/
theorem reset_none_inv (c : Nat) (s s2 : NameState)
    (h : reset c s = (none, s2)) :
    ∃ f, s.file = some f ∧ f.owner = c ∧
      s2 = ⟨some ⟨f.owner, 0, false⟩, fun _ => none⟩ := by
  cases hauth : authAndFindFile c s with
  | error e => simp [reset, hauth] at h
  | ok f =>
    obtain ⟨hsf, ho⟩ := authAndFindFile_inv c s f hauth
    refine ⟨f, hsf, ho, ?_⟩
    simp only [reset, hauth, Prod.mk.injEq, true_and] at h
    exact h.symm

/-- Success shape of del. -/
theorem del_none_inv (c : Nat) (s s2 : NameState)
    (h : del c s = (none, s2)) :
    ∃ f, s.file = some f ∧ f.owner = c ∧
      s2 = ⟨none, fun _ => none⟩ := by
  cases hauth : authAndFindFile c s with
  | error e => simp [del, hauth] at h
  | ok f =>
    obtain ⟨hsf, ho⟩ := authAndFindFile_inv c s f hauth
    refine ⟨f, hsf, ho, ?_⟩
    simp only [del, hauth, Prod.mk.injEq, true_and] at h
    exact h.symm

/-- Success shape of setpub. -/
theorem setpub_none_inv (c : Nat) (b : Bool) (s s2 : NameState)
    (h : setpub c b s = (none, s2)) :
    ∃ f, s.file = some f ∧ f.owner = c ∧
      s2 = ⟨some ⟨f.owner, f.top, b⟩, s.nodes⟩ := by
  cases hauth : authAndFindFile c s with
  | error e => simp [setpub, hauth] at h
  | ok f =>
    obtain ⟨hsf, ho⟩ := authAndFindFile_inv c s f hauth
    refine ⟨f, hsf, ho, ?_⟩
    simp only [setpub, hauth, Prod.mk.injEq, true_and] at h
    exact h.symm

/-- Success shape of setimmutable: requires published, keeps counter and
published, sets owner to the sentinel zero. -/
theorem setimmutable_none_inv (c : Nat) (s s2 : NameState)
    (h : setimmutable c s = (none, s2)) :
    ∃ f, s.file = some f ∧ f.owner = c ∧ f.published = true ∧
      s2 = ⟨some ⟨0, f.top, f.published⟩, s.nodes⟩ := by
  cases hauth : authAndFindFile c s with
  | error e => simp [setimmutable, hauth] at h
  | ok f =>
    obtain ⟨hsf, ho⟩ := authAndFindFile_inv c s f hauth
    simp only [setimmutable, hauth] at h
    by_cases hp : f.published
    · rw [if_pos hp] at h
      simp only [Prod.mk.injEq, true_and] at h
      exact ⟨f, hsf, ho, hp, h.symm⟩
    · rw [if_neg hp] at h; simp at h

/-- Success shape of setnode: data nonempty, caller owns the record, node
id at most the counter; the counter rises by one modulo 2 to the 32 when
the id hits the counter, published clears, the node is stored. -/
theorem setnode_none_inv (c nodeid : Nat) (d : List Nat) (s s2 : NameState)
    (h : setnode c nodeid d s = (none, s2)) :
    ∃ f, s.file = some f ∧ f.owner = c ∧ d ≠ [] ∧ nodeid ≤ f.top ∧
      s2 = ⟨some ⟨f.owner,
              if f.top = nodeid then (f.top + 1) % 2 ^ 32 else f.top,
              false⟩,
            fun i => if i = nodeid then some d else s.nodes i⟩ := by
  by_cases hd : d = []
  · rw [hd] at h; simp [setnode] at h
  · cases hauth : authAndFindFile c s with
    | error e => simp [setnode, hd, hauth] at h
    | ok f =>
      obtain ⟨hsf, ho⟩ := authAndFindFile_inv c s f hauth
      simp only [setnode, if_neg hd, hauth] at h
      by_cases ht : nodeid ≤ f.top
      · rw [if_pos ht] at h
        simp only [Prod.mk.injEq, true_and] at h
        exact ⟨f, hsf, ho, hd, ht, h.symm⟩
      · rw [if_neg ht] at h; simp at h

/-- Success shape of delnode: the caller owns the record, the counter is
positive and the node below it is present; that node is erased, the
counter drops by one and published clears. -/
theorem delnode_none_inv (c : Nat) (s s2 : NameState)
    (h : delnode c s = (none, s2)) :
    ∃ f, s.file = some f ∧ f.owner = c ∧ 0 < f.top ∧
      (s.nodes (f.top - 1)).isSome ∧
      s2 = ⟨some ⟨f.owner, f.top - 1, false⟩,
            fun i => if i = f.top - 1 then none else s.nodes i⟩ := by
  cases hauth : authAndFindFile c s with
  | error e => simp [delnode, hauth] at h
  | ok f =>
    obtain ⟨hsf, ho⟩ := authAndFindFile_inv c s f hauth
    simp only [delnode, hauth] at h
    by_cases ht : 0 < f.top
    · rw [if_pos ht] at h
      cases hn : s.nodes (f.top - 1) with
      | none => simp only [hn] at h; simp at h
      | some dat =>
        simp only [hn] at h
        simp only [Prod.mk.injEq, true_and] at h
        refine ⟨f, hsf, ho, ht, by rw [hn]; rfl, ?_⟩
        rw [← h]
    · rw [if_neg ht] at h; simp at h

/-- Claim C8: for write chunk called by the owner of an existing record,
the call fails EmptyChunk exactly when the data is empty, fails
IndexPastTop exactly when the data is nonempty and the node id is past the
top, and succeeds whenever the data is nonempty and the node id is at most
the top. -/
theorem C8_write_chunk_errors (bids : Bids) (fn c nodeid : Nat)
    (d : List Nat) (s : NameState) (f : FileRec)
    (hf : s.file = some f) (ho : f.owner = c) :
    ((applyAct bids fn (.setnode c nodeid d) s).1 = some Err.EmptyChunk ↔
      d = []) ∧
    ((applyAct bids fn (.setnode c nodeid d) s).1 = some Err.IndexPastTop ↔
      (d ≠ [] ∧ f.top < nodeid)) ∧
    (d ≠ [] → nodeid ≤ f.top →
      (applyAct bids fn (.setnode c nodeid d) s).1 = none) := by
  have hauth : authAndFindFile c s = .ok f := by
    simp [authAndFindFile, hf, ho]
  cases d with
  | nil =>
    refine ⟨by simp [applyAct, setnode], by simp [applyAct, setnode], ?_⟩
    intro h
    exact absurd rfl h
  | cons x xs =>
    have hne : (x :: xs : List Nat) ≠ [] := by simp
    simp only [applyAct, setnode, if_neg hne, hauth]
    by_cases ht : nodeid ≤ f.top
    · simp only [if_pos ht]
      refine ⟨by simp, by simp; omega, fun _ _ => by simp⟩
    · simp only [if_neg ht]
      refine ⟨by simp, by simp; omega, fun _ hle => absurd hle ht⟩

/-- Witness for claim C8: from an existing record owned by caller 7, a
write of empty data at node id 5 fails EmptyChunk. -/
theorem C8_write_chunk_errors_witness :
    (applyAct bids0 0 (.setnode 7 5 []) sOpen).1 = some Err.EmptyChunk :=
  (C8_write_chunk_errors bids0 0 7 5 [] sOpen ⟨7, 0, true⟩ rfl rfl).1.mpr rfl

/-- Claim C6: every successful write chunk and every successful pop chunk
leaves the record with published false, whatever the prior value was. -/
theorem C6_write_clears_published (bids : Bids) (fn c nodeid : Nat)
    (d : List Nat) (s s2 : NameState) :
    (applyAct bids fn (.setnode c nodeid d) s = (none, s2) →
      ∃ f, s2.file = some f ∧ f.published = false) ∧
    (applyAct bids fn (.delnode c) s = (none, s2) →
      ∃ f, s2.file = some f ∧ f.published = false) := by
  constructor
  · intro h
    obtain ⟨f, -, -, -, -, hs2⟩ := setnode_none_inv c nodeid d s s2 h
    exact ⟨_, by rw [hs2], rfl⟩
  · intro h
    obtain ⟨f, -, -, -, -, hs2⟩ := delnode_none_inv c s s2 h
    exact ⟨_, by rw [hs2], rfl⟩

/-- Witness for claim C6: a successful write of node 0 on the published
state sOpen leaves the record unpublished. -/
theorem C6_write_clears_published_witness :
    ∃ f, (applyAct bids0 0 (.setnode 7 0 [1]) sOpen).2.file = some f ∧
      f.published = false := by
  have h1 : (applyAct bids0 0 (.setnode 7 0 [1]) sOpen).1 = none := by decide
  have h0 : applyAct bids0 0 (.setnode 7 0 [1]) sOpen =
      ((applyAct bids0 0 (.setnode 7 0 [1]) sOpen).1,
       (applyAct bids0 0 (.setnode 7 0 [1]) sOpen).2) := rfl
  rw [h1] at h0
  exact (C6_write_clears_published bids0 0 7 0 [1] sOpen _).1 h0

/-- Failure of a raw action with any kind other than the internal iterator
assertion happens before any record was touched, so the state at the
failure point is the entry state. In every action of the source all checks
precede all table writes; the only post mutation abort is the erase of a
missing node in delnode, reported as InternalIterator. -/
theorem applyAct_err_eq (bids : Bids) (fn : Nat) (a : Act) (s : NameState)
    (e : Err) (s2 : NameState)
    (h : applyAct bids fn a s = (some e, s2))
    (hne : e ≠ Err.InternalIterator) : s2 = s := by
  cases a with
  | create o =>
    simp only [applyAct, create] at h
    split at h
    · simp only [Prod.mk.injEq] at h; exact h.2.symm
    · split at h
      · split at h
        · split at h
          · split at h
            · simp at h
            · simp only [Prod.mk.injEq] at h; exact h.2.symm
          · simp only [Prod.mk.injEq] at h; exact h.2.symm
        · split at h
          · simp at h
          · simp only [Prod.mk.injEq] at h; exact h.2.symm
      · simp at h
  | reset o =>
    simp only [applyAct, reset] at h
    split at h
    · simp only [Prod.mk.injEq] at h; exact h.2.symm
    · simp at h
  | del o =>
    simp only [applyAct, del] at h
    split at h
    · simp only [Prod.mk.injEq] at h; exact h.2.symm
    · simp at h
  | setpub o b =>
    simp only [applyAct, setpub] at h
    split at h
    · simp only [Prod.mk.injEq] at h; exact h.2.symm
    · simp at h
  | setimmutable o =>
    simp only [applyAct, setimmutable] at h
    split at h
    · simp only [Prod.mk.injEq] at h; exact h.2.symm
    · split at h
      · simp at h
      · simp only [Prod.mk.injEq] at h; exact h.2.symm
  | setnode o nodeid d =>
    simp only [applyAct, setnode] at h
    split at h
    · simp only [Prod.mk.injEq] at h; exact h.2.symm
    · split at h
      · simp only [Prod.mk.injEq] at h; exact h.2.symm
      · split at h
        · simp at h
        · simp only [Prod.mk.injEq] at h; exact h.2.symm
  | delnode o =>
    simp only [applyAct, delnode] at h
    split at h
    · simp only [Prod.mk.injEq] at h; exact h.2.symm
    · split at h
      · split at h
        · simp at h
        · simp only [Prod.mk.injEq, Option.some.injEq] at h
          exact absurd h.1.symm hne
      · simp only [Prod.mk.injEq] at h; exact h.2.symm

/-- Claim C7: an action failing with any of the eight spec failure kinds
leaves the whole store, the records of the touched name and of every other
name, exactly as it was. -/
theorem C7_failure_atomicity (bids : Bids) (fn : Nat) (a : Act) (st : Store)
    (e : Err) (h : (applyStore bids fn a st).1 = some e)
    (hl : listedErr e) : (applyStore bids fn a st).2 = st := by
  have hne : e ≠ Err.InternalIterator := by
    rcases hl with h1|h1|h1|h1|h1|h1|h1|h1 <;> subst h1 <;> simp
  have hfst : (applyAct bids fn a (st fn)).1 = some e := h
  have h0 : applyAct bids fn a (st fn) =
      ((applyAct bids fn a (st fn)).1, (applyAct bids fn a (st fn)).2) := rfl
  rw [hfst] at h0
  have hs2 : (applyAct bids fn a (st fn)).2 = st fn :=
    applyAct_err_eq bids fn a (st fn) e _ h0 hne
  show (fun x => if x = fn then (applyAct bids fn a (st fn)).2 else st x) = st
  funext x
  by_cases hx : x = fn
  · rw [if_pos hx, hs2, hx]
  · rw [if_neg hx]

/-- Witness for claim C7: a pop by caller 9 on a store whose record at
name 0 is owned by 7 fails NotOwner and leaves the store unchanged. -/
theorem C7_failure_atomicity_witness :
    (applyStore bids0 0 (.delnode 9) stW).2 = stW := by
  refine C7_failure_atomicity bids0 0 (.delnode 9) stW Err.NotOwner ?_ ?_
  · decide
  · exact Or.inr (Or.inr (Or.inr (Or.inl rfl)))

/-- Claim C4: for an absent name carrying a visible delimiter in the spec
sense, create by caller c succeeds exactly when the suffix has no registry
entry and c equals the suffix, or the registry entry has a negative closed
high bid and c is the recorded high bidder; when the entry has a
nonnegative open high bid the call fails NamespaceNotAuthorized for every
caller. -/
theorem C4_delimited_create_auth (bids : Bids) (fn c : Nat) (s : NameState)
    (hv : fn < 2 ^ 64) (hd : specVisibleDelimiter fn = true)
    (hsf : s.file = none) :
    ((applyAct bids fn (.create c) s).1 = none ↔
      ((bids (nameSuffix fn) = none ∧ c = nameSuffix fn) ∨
       (∃ b, bids (nameSuffix fn) = some b ∧ b.high_bid < 0 ∧
         b.high_bidder = c))) ∧
    (∀ b, bids (nameSuffix fn) = some b → 0 ≤ b.high_bid →
      (applyAct bids fn (.create c) s).1 = some Err.NamespaceNotAuthorized)
    := by
  have hvd : visibleDot fn = true := visibleDot_of_spec fn hv hd
  simp only [applyAct, create, hsf, if_pos hvd]
  cases hb : bids (nameSuffix fn) with
  | none =>
    simp only []
    constructor
    · by_cases h2 : c = nameSuffix fn
      · rw [if_pos h2]
        simp [h2]
      · rw [if_neg h2]
        simp [h2]
    · intro b hb2
      simp at hb2
  | some current =>
    simp only []
    by_cases h1 : current.high_bid < 0
    · rw [if_pos h1]
      constructor
      · by_cases h2 : current.high_bidder = c
        · rw [if_pos h2]
          constructor
          · intro _
            exact Or.inr ⟨current, rfl, h1, h2⟩
          · intro _
            rfl
        · rw [if_neg h2]
          constructor
          · intro h3
            exact absurd h3 (by simp)
          · rintro (⟨h3, -⟩ | ⟨b, hb3, -, h4⟩)
            · exact absurd h3 (by simp)
            · injection hb3 with h5
              subst h5
              exact absurd h4 h2
      · intro b hb2 hge
        injection hb2 with h5
        subst h5
        exact absurd hge (not_le.mpr h1)
    · rw [if_neg h1]
      constructor
      · constructor
        · intro h3
          exact absurd h3 (by simp)
        · rintro (⟨h3, -⟩ | ⟨b, hb3, h4, -⟩)
          · exact absurd h3 (by simp)
          · injection hb3 with h5
            subst h5
            exact absurd h4 h1
      · intro b hb2 hge
        rfl

/-- Witness for claim C4: the three symbol name with a dot between the
symbols b and a has a visible delimiter and suffix a; with an empty
registry, create by the caller whose name equals the suffix succeeds. -/
theorem C4_delimited_create_auth_witness :
    (applyAct bids0 vBdotA (.create vA) initState).1 = none := by
  refine ((C4_delimited_create_auth bids0 vBdotA vA initState (by decide)
    (by decide) rfl).1).mpr ?_
  exact Or.inl ⟨rfl, by decide⟩

/-- One successful step raises the counter by at most one, and preserves
the contiguity invariant as long as the counter cannot wrap during the
step. The wrap guard is needed exactly for the append at the 32 bit
boundary. -/
theorem step_inv (bids : Bids) (fn : Nat) (a : Act) (s s2 : NameState)
    (h : applyAct bids fn a s = (none, s2)) :
    topOf s2 ≤ topOf s + 1 ∧ (Inv s → topOf s + 1 < 2 ^ 32 → Inv s2) := by
  cases a with
  | create o =>
    obtain ⟨hsf, hs2⟩ := create_none_inv bids fn o s s2 h
    subst hs2
    refine ⟨by simp [topOf], fun hinv _ => ⟨fun hc => by simp at hc, ?_⟩⟩
    intro f hf i
    injection hf with hf2
    subst hf2
    simp [hinv.1 hsf i]
  | reset o =>
    obtain ⟨f, hsf, ho, hs2⟩ := reset_none_inv o s s2 h
    subst hs2
    refine ⟨by simp [topOf], fun _ _ => ⟨fun hc => by simp at hc, ?_⟩⟩
    intro g hg i
    injection hg with hg2
    subst hg2
    simp
  | del o =>
    obtain ⟨f, hsf, ho, hs2⟩ := del_none_inv o s s2 h
    subst hs2
    exact ⟨by simp [topOf], fun _ _ =>
      ⟨fun _ i => rfl, fun g hg => by simp at hg⟩⟩
  | setpub o b =>
    obtain ⟨f, hsf, ho, hs2⟩ := setpub_none_inv o b s s2 h
    subst hs2
    refine ⟨by simp [topOf, hsf], fun hinv _ => ⟨fun hc => by simp at hc, ?_⟩⟩
    intro g hg i
    injection hg with hg2
    subst hg2
    exact hinv.2 f hsf i
  | setimmutable o =>
    obtain ⟨f, hsf, ho, hp, hs2⟩ := setimmutable_none_inv o s s2 h
    subst hs2
    refine ⟨by simp [topOf, hsf], fun hinv _ => ⟨fun hc => by simp at hc, ?_⟩⟩
    intro g hg i
    injection hg with hg2
    subst hg2
    exact hinv.2 f hsf i
  | setnode o nodeid d =>
    obtain ⟨f, hsf, ho, hd, ht, hs2⟩ := setnode_none_inv o nodeid d s s2 h
    subst hs2
    have htop : topOf s = f.top := by simp [topOf, hsf]
    constructor
    · show (if f.top = nodeid then (f.top + 1) % 2 ^ 32 else f.top) ≤
        topOf s + 1
      rw [htop]
      by_cases he : f.top = nodeid
      · rw [if_pos he]
        exact Nat.mod_le _ _
      · rw [if_neg he]
        omega
    · intro hinv hlt
      refine ⟨fun hc => by simp at hc, ?_⟩
      intro g hg i
      injection hg with hg2
      subst hg2
      have hold := hinv.2 f hsf i
      simp only []
      by_cases hi : i = nodeid
      · subst hi
        rw [if_pos rfl]
        by_cases he : f.top = i
        · rw [if_pos he, Nat.mod_eq_of_lt (by omega)]
          simp
          omega
        · rw [if_neg he]
          simp
          omega
      · rw [if_neg hi]
        by_cases he : f.top = nodeid
        · rw [if_pos he, Nat.mod_eq_of_lt (by omega)]
          rw [hold]
          omega
        · rw [if_neg he]
          exact hold
  | delnode o =>
    obtain ⟨f, hsf, ho, ht, hn, hs2⟩ := delnode_none_inv o s s2 h
    subst hs2
    have htop : topOf s = f.top := by simp [topOf, hsf]
    refine ⟨by show f.top - 1 ≤ topOf s + 1; rw [htop]; omega,
      fun hinv _ => ⟨fun hc => by simp at hc, ?_⟩⟩
    intro g hg i
    injection hg with hg2
    subst hg2
    have hold := hinv.2 f hsf i
    simp only []
    by_cases hi : i = f.top - 1
    · rw [if_pos hi]
      simp
      omega
    · rw [if_neg hi]
      rw [hold]
      omega

/-- Along any run of successful actions the counter is bounded by the step
count, and the invariant holds while the step count stays below the wrap
bound. -/
theorem reachIn_inv (fn n : Nat) (s : NameState) (h : ReachIn fn n s) :
    topOf s ≤ n ∧ (n < 2 ^ 32 → Inv s) := by
  induction h with
  | init =>
    refine ⟨Nat.le_refl 0, fun _ => ⟨fun _ i => rfl, fun f hf => ?_⟩⟩
    simp [initState] at hf
  | step h1 h2 ih =>
    obtain ⟨hb, hi⟩ := ih
    obtain ⟨hb2, hi2⟩ := step_inv _ _ _ _ _ h2
    refine ⟨by omega, fun hlt => hi2 (hi (by omega)) (by omega)⟩

/-- Transition from the absent state to the created state of the driver
family: create of the empty name, which has no visible dot, by owner 5. -/
theorem create_initState :
    applyAct bids0 0 (.create 5) initState = (none, appState 0) := by
  have h2 : (⟨some ⟨5, 0, false⟩, fun _ => none⟩ : NameState) = appState 0 :=
    nameState_eq _ _ (by simp [appState]) (fun i => by simp [appState])
  calc applyAct bids0 0 (.create 5) initState
      = (none, ⟨some ⟨5, 0, false⟩, fun _ => none⟩) := rfl
    _ = (none, appState 0) := by rw [h2]

/-- Transition inside the driver family: appending node k from the state
with counter k succeeds and yields the state with counter k plus one. -/
theorem setnode_appState (k : Nat) (hk : k < 2 ^ 32) :
    applyAct bids0 0 (.setnode 5 k [1]) (appState k) =
      (none, appState (k + 1)) := by
  have hmod : k % 2 ^ 32 = k := Nat.mod_eq_of_lt hk
  have hne : ([1] : List Nat) ≠ [] := by simp
  have hauth : authAndFindFile 5 (appState k) = .ok ⟨5, k % 2 ^ 32, false⟩ :=
    authAndFindFile_ok 5 (appState k) ⟨5, k % 2 ^ 32, false⟩ rfl rfl
  show setnode 5 k [1] (appState k) = (none, appState (k + 1))
  simp only [setnode, if_neg hne, hauth]
  rw [if_pos (show k ≤ FileRec.top ⟨5, k % 2 ^ 32, false⟩ from
    Nat.le_of_eq hmod.symm)]
  refine congrArg (Prod.mk none) (nameState_eq _ _ ?_ ?_)
  · simp only [appState]
    rw [hmod]
    simp
  · intro i
    simp only [appState]
    by_cases hi : i = k
    · subst hi
      simp
    · simp only [if_neg hi]
      by_cases h2 : i < k
      · rw [if_pos h2, if_pos (by omega)]
      · rw [if_neg h2, if_neg (by omega)]

/-- The driver family is reachable: k plus one successful actions produce
the state with counter k, for every k up to the wrap bound. -/
theorem reach_appState (k : Nat) (hk : k ≤ 2 ^ 32) :
    ReachIn 0 (k + 1) (appState k) := by
  induction k with
  | zero => exact ReachIn.step ReachIn.init create_initState
  | succ k ih =>
    exact ReachIn.step (ih (by omega)) (setnode_appState k (by omega))

/-- Claim C2, counterexample: the state reached by one create and 2 to the
32 successful appends is reachable, yet its stored node ids are not the
ids below its counter: the 32 bit counter wrapped to zero while all the
appended nodes remain stored. -/
theorem C2_counterexample :
    ReachIn 0 (2 ^ 32 + 1) (appState (2 ^ 32)) ∧
    ¬ Contig (appState (2 ^ 32)) := by
  constructor
  · exact reach_appState (2 ^ 32) (Nat.le_refl _)
  · intro h
    have h2 := h ⟨5, 2 ^ 32 % 2 ^ 32, false⟩ rfl 0
    have h3 : ((appState (2 ^ 32)).nodes 0).isSome := by
      simp [appState]
    have h4 : ¬ (0 < FileRec.top ⟨5, 2 ^ 32 % 2 ^ 32, false⟩) := by
      simp
    exact h4 (h2.mp h3)

/-- Claim C2, amended: contiguity holds for every state reachable in fewer
than 2 to the 32 successful operations, in particular before the chunk
counter can ever wrap: the stored node ids are then exactly the ids below
the counter, with no gaps and nothing at or past it. -/
theorem C2_contiguity_bounded (fn n : Nat) (s : NameState)
    (h : ReachIn fn n s) (hn : n < 2 ^ 32) : Contig s :=
  fun f hf i => ((reachIn_inv fn n s h).2 hn).2 f hf i

/-- Witness for claim C2: the freshly created state, reached in one step,
satisfies contiguity. -/
theorem C2_contiguity_bounded_witness : Contig (appState 0) :=
  C2_contiguity_bounded 0 1 (appState 0)
    (ReachIn.step ReachIn.init create_initState) (by norm_num)

/-- Forward shape of a successful setnode. -/
theorem setnode_ok (c nodeid : Nat) (d : List Nat) (s : NameState)
    (f : FileRec) (hsf : s.file = some f) (ho : f.owner = c) (hd : d ≠ [])
    (ht : nodeid ≤ f.top) :
    setnode c nodeid d s = (none, ⟨some ⟨f.owner,
        if f.top = nodeid then (f.top + 1) % 2 ^ 32 else f.top, false⟩,
      fun i => if i = nodeid then some d else s.nodes i⟩) := by
  simp only [setnode, if_neg hd, authAndFindFile_ok c s f hsf ho, if_pos ht]

/-- Forward shape of a successful delnode. -/
theorem delnode_ok (c : Nat) (s : NameState) (f : FileRec) (dat : List Nat)
    (hsf : s.file = some f) (ho : f.owner = c) (ht : 0 < f.top)
    (hdat : s.nodes (f.top - 1) = some dat) :
    delnode c s = (none, ⟨some ⟨f.owner, f.top - 1, false⟩,
      fun i => if i = f.top - 1 then none else s.nodes i⟩) := by
  simp only [delnode, authAndFindFile_ok c s f hsf ho, if_pos ht, hdat]

/-- Claim C5, amended: for the owner of an existing record, pop chunk at
counter zero fails EmptyObject and otherwise, when the top chunk is
present, removes exactly the chunk below the counter and decrements the
counter; a successful write chunk keeps the counter on an overwrite below
it and moves it to counter plus one reduced modulo 2 to the 32 on an
append at the counter, so the increment is by exactly one except at the
32 bit boundary where it wraps to zero; and no action except write chunk
ever increases the counter. -/
theorem C5_top_mutation_amended :
    (∀ (bids : Bids) (fn c : Nat) (s : NameState) (f : FileRec),
      s.file = some f → f.owner = c →
      ((f.top = 0 →
         applyAct bids fn (.delnode c) s = (some Err.EmptyObject, s)) ∧
       (0 < f.top → (s.nodes (f.top - 1)).isSome →
         (applyAct bids fn (.delnode c) s).1 = none ∧
         topOf (applyAct bids fn (.delnode c) s).2 = f.top - 1 ∧
         (applyAct bids fn (.delnode c) s).2.nodes (f.top - 1) = none ∧
         (∀ i, i ≠ f.top - 1 →
           (applyAct bids fn (.delnode c) s).2.nodes i = s.nodes i)) ∧
       (∀ nodeid d, d ≠ [] → nodeid < f.top →
         (applyAct bids fn (.setnode c nodeid d) s).1 = none ∧
         topOf (applyAct bids fn (.setnode c nodeid d) s).2 = f.top) ∧
       (∀ nodeid d, d ≠ [] → nodeid = f.top →
         (applyAct bids fn (.setnode c nodeid d) s).1 = none ∧
         topOf (applyAct bids fn (.setnode c nodeid d) s).2 =
           (f.top + 1) % 2 ^ 32))) ∧
    (∀ (bids : Bids) (fn : Nat) (a : Act) (s s2 : NameState),
      a.isSetnode = false → applyAct bids fn a s = (none, s2) →
      topOf s2 ≤ topOf s) := by
  constructor
  · intro bids fn c s f hsf ho
    have ha : applyAct bids fn (.delnode c) s = delnode c s := rfl
    refine ⟨?_, ?_, ?_, ?_⟩
    · intro h0
      rw [ha]
      simp only [delnode, authAndFindFile_ok c s f hsf ho]
      rw [if_neg (by omega)]
    · intro ht hn
      obtain ⟨dat, hdat⟩ := Option.isSome_iff_exists.mp hn
      rw [ha, delnode_ok c s f dat hsf ho ht hdat]
      refine ⟨rfl, rfl, by simp, fun i hi => ?_⟩
      show (if i = f.top - 1 then none else s.nodes i) = s.nodes i
      rw [if_neg hi]
    · intro nodeid d hd hlt
      have hb : applyAct bids fn (.setnode c nodeid d) s =
          setnode c nodeid d s := rfl
      rw [hb, setnode_ok c nodeid d s f hsf ho hd (Nat.le_of_lt hlt)]
      refine ⟨rfl, ?_⟩
      show (if f.top = nodeid then (f.top + 1) % 2 ^ 32 else f.top) = f.top
      rw [if_neg (by omega)]
    · intro nodeid d hd he
      have hb : applyAct bids fn (.setnode c nodeid d) s =
          setnode c nodeid d s := rfl
      rw [hb, setnode_ok c nodeid d s f hsf ho hd (Nat.le_of_eq he)]
      refine ⟨rfl, ?_⟩
      show (if f.top = nodeid then (f.top + 1) % 2 ^ 32 else f.top) =
        (f.top + 1) % 2 ^ 32
      rw [if_pos he.symm]
  · intro bids fn a s s2 hns h
    cases a with
    | create o =>
      obtain ⟨hsf, hs2⟩ := create_none_inv bids fn o s s2 h
      subst hs2
      exact Nat.zero_le _
    | reset o =>
      obtain ⟨f, hsf, ho, hs2⟩ := reset_none_inv o s s2 h
      subst hs2
      exact Nat.zero_le _
    | del o =>
      obtain ⟨f, hsf, ho, hs2⟩ := del_none_inv o s s2 h
      subst hs2
      exact Nat.zero_le _
    | setpub o b =>
      obtain ⟨f, hsf, ho, hs2⟩ := setpub_none_inv o b s s2 h
      subst hs2
      show f.top ≤ topOf s
      simp [topOf, hsf]
    | setimmutable o =>
      obtain ⟨f, hsf, ho, hp, hs2⟩ := setimmutable_none_inv o s s2 h
      subst hs2
      show f.top ≤ topOf s
      simp [topOf, hsf]
    | setnode o nodeid d => simp [Act.isSetnode] at hns
    | delnode o =>
      obtain ⟨f, hsf, ho, ht, hn, hs2⟩ := delnode_none_inv o s s2 h
      subst hs2
      show f.top - 1 ≤ topOf s
      simp [topOf, hsf]

/-- Claim C5, counterexample: the boundary state with counter 2 to the 32
minus 1 is reachable; the append at node id equal to the counter succeeds
there, yet the counter after the call is 0 and not the counter plus one. -/
theorem C5_counterexample :
    ReachIn 0 (2 ^ 32) (appState (2 ^ 32 - 1)) ∧
    (appState (2 ^ 32 - 1)).file = some ⟨5, 2 ^ 32 - 1, false⟩ ∧
    (applyAct bids0 0 (.setnode 5 (2 ^ 32 - 1) [1])
      (appState (2 ^ 32 - 1))).1 = none ∧
    topOf (applyAct bids0 0 (.setnode 5 (2 ^ 32 - 1) [1])
      (appState (2 ^ 32 - 1))).2 = 0 ∧
    2 ^ 32 - 1 + 1 ≠ 0 := by
  refine ⟨?_, ?_, ?_, ?_, by norm_num⟩
  · have h := reach_appState (2 ^ 32 - 1) (by norm_num)
    rw [show (2 : Nat) ^ 32 - 1 + 1 = 2 ^ 32 from by norm_num] at h
    exact h
  · simp only [appState]
    rw [Nat.mod_eq_of_lt (by norm_num)]
  · rw [setnode_appState (2 ^ 32 - 1) (by norm_num)]
  · rw [setnode_appState (2 ^ 32 - 1) (by norm_num)]
    show (2 ^ 32 - 1 + 1) % 2 ^ 32 = 0
    norm_num

/-- Witness for claim C5: popping the single chunk of the state sOne
succeeds, drops the counter to zero and erases node zero. -/
theorem C5_top_mutation_amended_witness :
    (applyAct bids0 0 (.delnode 7) sOne).1 = none ∧
    topOf (applyAct bids0 0 (.delnode 7) sOne).2 = 0 ∧
    (applyAct bids0 0 (.delnode 7) sOne).2.nodes 0 = none := by
  have h := (C5_top_mutation_amended.1 bids0 0 7 sOne ⟨7, 1, true⟩ rfl
    rfl).2.1 (by norm_num) (by simp [sOne])
  exact ⟨h.1, h.2.1, h.2.2.1⟩

/-- A record frozen by setimmutable answers every non create action by a
caller other than the sentinel with the frozen failure kind and keeps the
state unchanged. -/
theorem frozen_step (bids : Bids) (fn : Nat) (a : Act) (s : NameState)
    (f : FileRec) (hsf : s.file = some f) (hfz : f.owner = 0)
    (hc : a.caller ≠ 0) (hnc : a.isCreate = false) :
    applyAct bids fn a s = (some (frozenErr a), s) := by
  have hauth : ∀ c, c ≠ 0 → authAndFindFile c s = .error .NotOwner := by
    intro c hc0
    have : f.owner ≠ c := by rw [hfz]; exact fun he => hc0 he.symm
    simp [authAndFindFile, hsf, this]
  cases a with
  | create o => simp [Act.isCreate] at hnc
  | reset o =>
    have h1 := hauth o hc
    simp [applyAct, reset, h1, frozenErr]
  | del o =>
    have h1 := hauth o hc
    simp [applyAct, del, h1, frozenErr]
  | setpub o b =>
    have h1 := hauth o hc
    simp [applyAct, setpub, h1, frozenErr]
  | setimmutable o =>
    have h1 := hauth o hc
    simp [applyAct, setimmutable, h1, frozenErr]
  | setnode o nodeid d =>
    cases d with
    | nil => rfl
    | cons x xs =>
      have h1 := hauth o hc
      have hne : (x :: xs : List Nat) ≠ [] := by simp
      simp [applyAct, setnode, if_neg hne, h1, frozenErr]
  | delnode o =>
    have h1 := hauth o hc
    simp [applyAct, delnode, h1, frozenErr]

/-- Claim C3, amended: once freeze succeeds, every later trace of reset,
delete, publish toggle, freeze, write chunk and pop chunk transactions by
authenticated callers leaves the record and its chunks exactly as the
freeze left them, each call failing with NotOwner, except a write chunk
with empty data which fails with EmptyChunk before reaching the ownership
check. -/
theorem C3_freeze_terminal_amended (bids : Bids) (fn c0 : Nat)
    (s s1 : NameState)
    (hfr : applyAct bids fn (.setimmutable c0) s = (none, s1)) :
    ∀ tr : List (Bids × Act),
      (∀ p ∈ tr, p.2.caller ≠ 0 ∧ p.2.isCreate = false) →
      hostRun fn tr s1 = s1 ∧
      ∀ p ∈ tr, applyAct p.1 fn p.2 s1 = (some (frozenErr p.2), s1) := by
  obtain ⟨f, hsf, ho, hp, hs1⟩ := setimmutable_none_inv c0 s s1 hfr
  have hfz : s1.file = some ⟨0, f.top, f.published⟩ := by rw [hs1]
  have hstep : ∀ (b : Bids) (a : Act), a.caller ≠ 0 → a.isCreate = false →
      applyAct b fn a s1 = (some (frozenErr a), s1) :=
    fun b a h1 h2 =>
      frozen_step b fn a s1 ⟨0, f.top, f.published⟩ hfz rfl h1 h2
  intro tr
  induction tr with
  | nil => intro _; exact ⟨rfl, by simp⟩
  | cons p tr ih =>
    intro hall
    obtain ⟨h1, h2⟩ := hall p (by simp)
    have hfail := hstep p.1 p.2 h1 h2
    have hhost : hostStep p.1 fn p.2 s1 = s1 := by
      simp [hostStep, hfail]
    obtain ⟨ihr, ihall⟩ := ih (fun q hq => hall q (by simp [hq]))
    constructor
    · show hostRun fn tr (hostStep p.1 fn p.2 s1) = s1
      rw [hhost, ihr]
    · intro q hq
      rcases List.mem_cons.mp hq with hq1 | hq2
      · subst hq1; exact hfail
      · exact ihall q hq2

/-- Claim C3, counterexample: freeze succeeds on the published state sPub,
and a later write chunk with empty data by the authenticated caller 9
fails with EmptyChunk, not with NotOwner as the claim states. -/
theorem C3_counterexample :
    (applyAct bids0 0 (.setimmutable 7) sPub).1 = none ∧
    (applyAct bids0 0 (.setnode 9 0 []) sFrozen).1 = some Err.EmptyChunk ∧
    Err.EmptyChunk ≠ Err.NotOwner := by
  exact ⟨by decide, by decide, by decide⟩

/-- Witness for claim C3: after freezing sPub, a reset by caller 9 fails
NotOwner and leaves the frozen state unchanged. -/
theorem C3_freeze_terminal_witness :
    applyAct bids0 0 (.reset 9) sFrozen = (some Err.NotOwner, sFrozen) := by
  have h1 : (applyAct bids0 0 (.setimmutable 7) sPub).1 = none := by decide
  have h0 : applyAct bids0 0 (.setimmutable 7) sPub =
      ((applyAct bids0 0 (.setimmutable 7) sPub).1,
       (applyAct bids0 0 (.setimmutable 7) sPub).2) := rfl
  rw [h1] at h0
  have h := C3_freeze_terminal_amended bids0 0 7 sPub sFrozen h0
    [(bids0, .reset 9)] ?_
  · exact h.2 (bids0, .reset 9) (by simp)
  · intro p hp
    rw [List.mem_singleton] at hp
    subst hp
    exact ⟨by decide, rfl⟩

end PStore
